import Mathlib

/-!
Verification of the core of the microscopy image analyzer: the viewport
coordinate engine, the ROI interaction state machine, the cyclic sequence
navigator, and the batch crop / animation-naming pipeline.

Python floats are modelled as rationals, file-system paths as lists of
characters, and the mutable `ImageProcessor` / `ROIManager` objects as
explicit state records threaded through the operations.
-/

/-- File paths are modelled as character lists. -/
abbrev FPath := List Char

/-- Images are modelled abstractly by identifiers; the claims under study
never inspect pixel data. -/
abbrev Img := Nat

namespace AppConfig

/-- Embeds `AppConfig.MAX_ZOOM = 20.0` from `config/settings.py`. -/
def MAX_ZOOM : ℚ := 20

/-- Embeds `AppConfig.MIN_ZOOM = 0.1` from `config/settings.py`. -/
def MIN_ZOOM : ℚ := 1/10

/-- Embeds `AppConfig.ZOOM_FACTOR = 1.2` from `config/settings.py`. -/
def ZOOM_FACTOR : ℚ := 6/5

/-- Embeds `AppConfig.MIN_ROI_SIZE = 5` from `config/settings.py`. -/
def MIN_ROI_SIZE : ℚ := 5

end AppConfig

/-- Python `int()` applied to a (rational-modelled) float: truncation toward
zero. -/
def pyInt (q : ℚ) : ℤ := if 0 ≤ q then ⌊q⌋ else ⌈q⌉

/-- The state of `ImageProcessor` (src/src/core/image_processor.py), restricted
to the fields the verified operations read or write.  `display_image` records
whether an image is currently loaded (the Python attribute is an image object
or `None`). -/
structure ImageProcessor where
  image_paths : List FPath
  current_image_index : ℤ
  display_image : Bool
  scale_factor : ℚ
  default_scale : Option ℚ
  canvas_offset_x : ℚ
  canvas_offset_y : ℚ
  cropped_images : List Img

/-- Embeds `ImageProcessor.screen_to_image_coords`: image coordinates are
`(screen - offset) / scale`, then truncated by Python `int()`. -/
def ImageProcessor.screen_to_image_coords (st : ImageProcessor) (sx sy : ℚ) : ℤ × ℤ :=
  (pyInt ((sx - st.canvas_offset_x) / st.scale_factor),
   pyInt ((sy - st.canvas_offset_y) / st.scale_factor))

/-- Embeds `ImageProcessor.image_to_screen_coords`: screen coordinates are
`img * scale + offset`, then truncated by Python `int()`. -/
def ImageProcessor.image_to_screen_coords (st : ImageProcessor) (ix iy : ℚ) : ℤ × ℤ :=
  (pyInt (ix * st.scale_factor + st.canvas_offset_x),
   pyInt (iy * st.scale_factor + st.canvas_offset_y))

/-- Modelled from the spec's wording for the refinement comparison: the exact
(untruncated) affine map `screenToImage(sx, sy) = ((sx-offset.x)/scale,
(sy-offset.y)/scale)`. -/
def screenToImageSpec (scale ox oy : ℚ) (p : ℚ × ℚ) : ℚ × ℚ :=
  ((p.1 - ox) / scale, (p.2 - oy) / scale)

/-- Modelled from the spec's wording for the refinement comparison: the exact
(untruncated) affine map `imageToScreen(ix, iy) = (ix*scale+offset.x,
iy*scale+offset.y)`. -/
def imageToScreenSpec (scale ox oy : ℚ) (p : ℚ × ℚ) : ℚ × ℚ :=
  (p.1 * scale + ox, p.2 * scale + oy)

lemma pyInt_close (q : ℚ) : |(pyInt q : ℚ) - q| < 1 := by
  unfold pyInt
  split
  · rw [abs_sub_lt_iff]
    constructor
    · have h := Int.floor_le q
      push_cast at h ⊢
      linarith
    · have h := Int.lt_floor_add_one q
      push_cast at h ⊢
      linarith
  · rw [abs_sub_lt_iff]
    constructor
    · have h := Int.ceil_lt_add_one q
      push_cast at h ⊢
      linarith
    · have h := Int.le_ceil q
      push_cast at h ⊢
      linarith

lemma scale_pos_of_min {s : ℚ} (h : AppConfig.MIN_ZOOM ≤ s) : 0 < s := by
  have : (0:ℚ) < 1/10 := by norm_num
  calc (0:ℚ) < 1/10 := this
    _ ≤ s := h

/-- CLAIM C1.  For every scale `s` with `MIN_ZOOM ≤ s ≤ MAX_ZOOM`, every
offset and every image point `p`: (a) the exact affine maps stated in the
spec are mutually inverse bijections; (b) the code's truncating maps refine
them, `screen_to_image_coords` and `image_to_screen_coords` being exactly the
spec maps followed by Python `int()` truncation; (c) round-tripping an image
point through the code's `image_to_screen_coords` then
`screen_to_image_coords` returns the point within tolerance `1 + 1/s`
(at most `11` over the allowed zoom range). -/
theorem coord_roundtrip (st : ImageProcessor)
    (hmin : AppConfig.MIN_ZOOM ≤ st.scale_factor)
    (hmax : st.scale_factor ≤ AppConfig.MAX_ZOOM) (ix iy : ℚ) :
    (screenToImageSpec st.scale_factor st.canvas_offset_x st.canvas_offset_y
        (imageToScreenSpec st.scale_factor st.canvas_offset_x st.canvas_offset_y (ix, iy))
      = (ix, iy)
    ∧ imageToScreenSpec st.scale_factor st.canvas_offset_x st.canvas_offset_y
        (screenToImageSpec st.scale_factor st.canvas_offset_x st.canvas_offset_y (ix, iy))
      = (ix, iy))
    ∧ (st.screen_to_image_coords ix iy
        = (pyInt (screenToImageSpec st.scale_factor st.canvas_offset_x st.canvas_offset_y (ix, iy)).1,
           pyInt (screenToImageSpec st.scale_factor st.canvas_offset_x st.canvas_offset_y (ix, iy)).2)
    ∧ st.image_to_screen_coords ix iy
        = (pyInt (imageToScreenSpec st.scale_factor st.canvas_offset_x st.canvas_offset_y (ix, iy)).1,
           pyInt (imageToScreenSpec st.scale_factor st.canvas_offset_x st.canvas_offset_y (ix, iy)).2))
    ∧ (|((st.screen_to_image_coords ((st.image_to_screen_coords ix iy).1 : ℚ)
            ((st.image_to_screen_coords ix iy).2 : ℚ)).1 : ℚ) - ix| < 1 + 1/st.scale_factor
    ∧ |((st.screen_to_image_coords ((st.image_to_screen_coords ix iy).1 : ℚ)
            ((st.image_to_screen_coords ix iy).2 : ℚ)).2 : ℚ) - iy| < 1 + 1/st.scale_factor) := by
  have hs : (0:ℚ) < st.scale_factor := scale_pos_of_min hmin
  have hs0 : st.scale_factor ≠ 0 := ne_of_gt hs
  refine ⟨⟨?_, ?_⟩, ⟨rfl, rfl⟩, ?_, ?_⟩
  · simp only [screenToImageSpec, imageToScreenSpec, Prod.mk.injEq]
    constructor <;> field_simp
  · simp only [screenToImageSpec, imageToScreenSpec, Prod.mk.injEq]
    constructor <;> field_simp
  · simp only [ImageProcessor.screen_to_image_coords, ImageProcessor.image_to_screen_coords]
    have e1 := pyInt_close (ix * st.scale_factor + st.canvas_offset_x)
    set sx : ℤ := pyInt (ix * st.scale_factor + st.canvas_offset_x) with hsx
    have e2 := pyInt_close (((sx : ℚ) - st.canvas_offset_x) / st.scale_factor)
    set r : ℤ := pyInt (((sx : ℚ) - st.canvas_offset_x) / st.scale_factor) with hr
    have key : ((sx : ℚ) - st.canvas_offset_x) / st.scale_factor - ix
        = ((sx : ℚ) - (ix * st.scale_factor + st.canvas_offset_x)) / st.scale_factor := by
      field_simp
      ring
    have hb : |((sx : ℚ) - st.canvas_offset_x) / st.scale_factor - ix| < 1 / st.scale_factor := by
      rw [key, abs_div, abs_of_pos hs]
      exact (div_lt_div_iff_of_pos_right hs).mpr e1
    calc |(r : ℚ) - ix|
        ≤ |(r : ℚ) - ((sx : ℚ) - st.canvas_offset_x) / st.scale_factor|
          + |((sx : ℚ) - st.canvas_offset_x) / st.scale_factor - ix| := abs_sub_le _ _ _
      _ < 1 + 1/st.scale_factor := add_lt_add e2 hb
  · simp only [ImageProcessor.screen_to_image_coords, ImageProcessor.image_to_screen_coords]
    have e1 := pyInt_close (iy * st.scale_factor + st.canvas_offset_y)
    set sy : ℤ := pyInt (iy * st.scale_factor + st.canvas_offset_y) with hsy
    have e2 := pyInt_close (((sy : ℚ) - st.canvas_offset_y) / st.scale_factor)
    set r : ℤ := pyInt (((sy : ℚ) - st.canvas_offset_y) / st.scale_factor) with hr
    have key : ((sy : ℚ) - st.canvas_offset_y) / st.scale_factor - iy
        = ((sy : ℚ) - (iy * st.scale_factor + st.canvas_offset_y)) / st.scale_factor := by
      field_simp
      ring
    have hb : |((sy : ℚ) - st.canvas_offset_y) / st.scale_factor - iy| < 1 / st.scale_factor := by
      rw [key, abs_div, abs_of_pos hs]
      exact (div_lt_div_iff_of_pos_right hs).mpr e1
    calc |(r : ℚ) - iy|
        ≤ |(r : ℚ) - ((sy : ℚ) - st.canvas_offset_y) / st.scale_factor|
          + |((sy : ℚ) - st.canvas_offset_y) / st.scale_factor - iy| := abs_sub_le _ _ _
      _ < 1 + 1/st.scale_factor := add_lt_add e2 hb

/-- Python truthiness of the optional `default_scale` attribute: `None` and
`0.0` are falsy. -/
def truthyScale : Option ℚ → Bool
  | none => false
  | some d => d ≠ 0

/-- Embeds `ImageProcessor.reset_view`: a no-op unless an image is loaded and
`default_scale` is truthy, otherwise sets `scale = default_scale` and
`offset = (0, 0)`. -/
def ImageProcessor.reset_view (st : ImageProcessor) : ImageProcessor :=
  if st.display_image = false ∨ truthyScale st.default_scale = false then st
  else
    { st with scale_factor := st.default_scale.getD 0,
              canvas_offset_x := 0, canvas_offset_y := 0 }

/-- Embeds `ImageProcessor.zoom_in`: no-op without a loaded image; otherwise
`scale = min(scale * ZOOM_FACTOR, MAX_ZOOM)` and the offset is recomputed so
the mouse anchor keeps its image point. -/
def ImageProcessor.zoom_in (st : ImageProcessor) (mouse_x mouse_y : ℚ) : ImageProcessor :=
  if st.display_image = false then st
  else
    let old_scale := st.scale_factor
    let ns := min (st.scale_factor * AppConfig.ZOOM_FACTOR) AppConfig.MAX_ZOOM
    { st with
      scale_factor := ns,
      canvas_offset_x := mouse_x - (mouse_x - st.canvas_offset_x) * (ns / old_scale),
      canvas_offset_y := mouse_y - (mouse_y - st.canvas_offset_y) * (ns / old_scale) }

/-- Embeds `ImageProcessor.zoom_out`: no-op without a loaded image; otherwise
`scale = max(scale / ZOOM_FACTOR, MIN_ZOOM)`; if that falls below a truthy
`default_scale` the scale snaps to `default_scale` and the view is reset;
otherwise the offset is recomputed around the mouse anchor. -/
def ImageProcessor.zoom_out (st : ImageProcessor) (mouse_x mouse_y : ℚ) : ImageProcessor :=
  if st.display_image = false then st
  else
    let old_scale := st.scale_factor
    let ns := max (st.scale_factor / AppConfig.ZOOM_FACTOR) AppConfig.MIN_ZOOM
    if truthyScale st.default_scale ∧ ns < st.default_scale.getD 0 then
      ImageProcessor.reset_view { st with scale_factor := st.default_scale.getD 0 }
    else
      { st with
        scale_factor := ns,
        canvas_offset_x := mouse_x - (mouse_x - st.canvas_offset_x) * (ns / old_scale),
        canvas_offset_y := mouse_y - (mouse_y - st.canvas_offset_y) * (ns / old_scale) }

/-- Clamp as stated by the spec: `clamp(x, lo, hi) = max lo (min x hi)`. -/
def clampQ (x lo hi : ℚ) : ℚ := max lo (min x hi)

lemma anchor_image_point (os ns ox oy mx my : ℚ) (hos : os ≠ 0) (hns : ns ≠ 0) :
    screenToImageSpec ns (mx - (mx - ox) * (ns / os)) (my - (my - oy) * (ns / os)) (mx, my)
      = screenToImageSpec os ox oy (mx, my) := by
  simp only [screenToImageSpec, Prod.mk.injEq]
  constructor <;> field_simp <;> ring

/-- CLAIM C2 (amended).  For a loaded image with scale in `[MIN_ZOOM,
MAX_ZOOM]`: `zoom_in` always (unconditionally), and `zoom_out` whenever the
fit-to-window floor does not trigger (no truthy `default_scale` exceeds the
zoomed-out scale), set the new scale to
`clamp(scale*factor, MIN_ZOOM, MAX_ZOOM)` resp.
`clamp(scale/factor, MIN_ZOOM, MAX_ZOOM)`, recompute the offset as
`offset' = anchor - (anchor - offset) * (newScale/oldScale)`, and keep the
anchor screen point on the same (exact) image point. -/
theorem zoomAt_clamp_and_anchor (st : ImageProcessor) (mx my : ℚ)
    (hdisp : st.display_image = true)
    (hmin : AppConfig.MIN_ZOOM ≤ st.scale_factor)
    (hmax : st.scale_factor ≤ AppConfig.MAX_ZOOM) :
    ((st.zoom_in mx my).scale_factor
        = clampQ (st.scale_factor * AppConfig.ZOOM_FACTOR) AppConfig.MIN_ZOOM AppConfig.MAX_ZOOM
    ∧ (st.zoom_in mx my).canvas_offset_x
        = mx - (mx - st.canvas_offset_x) * ((st.zoom_in mx my).scale_factor / st.scale_factor)
    ∧ (st.zoom_in mx my).canvas_offset_y
        = my - (my - st.canvas_offset_y) * ((st.zoom_in mx my).scale_factor / st.scale_factor)
    ∧ screenToImageSpec (st.zoom_in mx my).scale_factor (st.zoom_in mx my).canvas_offset_x
        (st.zoom_in mx my).canvas_offset_y (mx, my)
        = screenToImageSpec st.scale_factor st.canvas_offset_x st.canvas_offset_y (mx, my))
    ∧ ((∀ d, st.default_scale = some d → d ≠ 0 →
        d ≤ max (st.scale_factor / AppConfig.ZOOM_FACTOR) AppConfig.MIN_ZOOM) →
      (st.zoom_out mx my).scale_factor
        = clampQ (st.scale_factor / AppConfig.ZOOM_FACTOR) AppConfig.MIN_ZOOM AppConfig.MAX_ZOOM
    ∧ (st.zoom_out mx my).canvas_offset_x
        = mx - (mx - st.canvas_offset_x) * ((st.zoom_out mx my).scale_factor / st.scale_factor)
    ∧ (st.zoom_out mx my).canvas_offset_y
        = my - (my - st.canvas_offset_y) * ((st.zoom_out mx my).scale_factor / st.scale_factor)
    ∧ screenToImageSpec (st.zoom_out mx my).scale_factor (st.zoom_out mx my).canvas_offset_x
        (st.zoom_out mx my).canvas_offset_y (mx, my)
        = screenToImageSpec st.scale_factor st.canvas_offset_x st.canvas_offset_y (mx, my)) := by
  have hs : (0:ℚ) < st.scale_factor := scale_pos_of_min hmin
  have hs0 : st.scale_factor ≠ 0 := ne_of_gt hs
  have hmin' : (1/10 : ℚ) ≤ st.scale_factor := hmin
  have hmax' : st.scale_factor ≤ (20 : ℚ) := hmax
  have hclamp_in : clampQ (st.scale_factor * AppConfig.ZOOM_FACTOR) AppConfig.MIN_ZOOM AppConfig.MAX_ZOOM
      = min (st.scale_factor * AppConfig.ZOOM_FACTOR) AppConfig.MAX_ZOOM := by
    unfold clampQ AppConfig.MIN_ZOOM AppConfig.MAX_ZOOM AppConfig.ZOOM_FACTOR
    rw [max_eq_right]
    apply le_min
    · nlinarith
    · norm_num
  have hclamp_out : clampQ (st.scale_factor / AppConfig.ZOOM_FACTOR) AppConfig.MIN_ZOOM AppConfig.MAX_ZOOM
      = max (st.scale_factor / AppConfig.ZOOM_FACTOR) AppConfig.MIN_ZOOM := by
    unfold clampQ AppConfig.MIN_ZOOM AppConfig.MAX_ZOOM AppConfig.ZOOM_FACTOR
    rw [min_eq_left]
    · exact max_comm _ _
    · nlinarith
  have hin : st.zoom_in mx my =
      { st with
        scale_factor := min (st.scale_factor * AppConfig.ZOOM_FACTOR) AppConfig.MAX_ZOOM,
        canvas_offset_x := mx - (mx - st.canvas_offset_x)
          * (min (st.scale_factor * AppConfig.ZOOM_FACTOR) AppConfig.MAX_ZOOM / st.scale_factor),
        canvas_offset_y := my - (my - st.canvas_offset_y)
          * (min (st.scale_factor * AppConfig.ZOOM_FACTOR) AppConfig.MAX_ZOOM / st.scale_factor) } := by
    unfold ImageProcessor.zoom_in
    rw [hdisp]
    simp
  have hnin : min (st.scale_factor * AppConfig.ZOOM_FACTOR) AppConfig.MAX_ZOOM ≠ 0 := by
    have : (0:ℚ) < min (st.scale_factor * AppConfig.ZOOM_FACTOR) AppConfig.MAX_ZOOM := by
      apply lt_min
      · unfold AppConfig.ZOOM_FACTOR; positivity
      · unfold AppConfig.MAX_ZOOM; norm_num
    exact ne_of_gt this
  have hnout : max (st.scale_factor / AppConfig.ZOOM_FACTOR) AppConfig.MIN_ZOOM ≠ 0 := by
    have : (0:ℚ) < max (st.scale_factor / AppConfig.ZOOM_FACTOR) AppConfig.MIN_ZOOM := by
      apply lt_of_lt_of_le _ (le_max_right _ _)
      unfold AppConfig.MIN_ZOOM; norm_num
    exact ne_of_gt this
  constructor
  · rw [hin]
    refine ⟨hclamp_in.symm, rfl, rfl, ?_⟩
    exact anchor_image_point st.scale_factor _ st.canvas_offset_x st.canvas_offset_y mx my hs0 hnin
  · intro hfloor
    have hguard : ¬ (truthyScale st.default_scale
        ∧ max (st.scale_factor / AppConfig.ZOOM_FACTOR) AppConfig.MIN_ZOOM < st.default_scale.getD 0) := by
      rintro ⟨ht, hlt⟩
      match hd : st.default_scale with
      | none => rw [hd] at ht; exact absurd ht (by simp [truthyScale])
      | some d =>
        rw [hd] at ht hlt
        have hdne : d ≠ 0 := by
          by_contra h0
          rw [truthyScale] at ht
          simp [h0] at ht
        have := hfloor d hd hdne
        simp only [Option.getD_some] at hlt
        exact absurd hlt (not_lt.mpr this)
    have hout : st.zoom_out mx my =
        { st with
          scale_factor := max (st.scale_factor / AppConfig.ZOOM_FACTOR) AppConfig.MIN_ZOOM,
          canvas_offset_x := mx - (mx - st.canvas_offset_x)
            * (max (st.scale_factor / AppConfig.ZOOM_FACTOR) AppConfig.MIN_ZOOM / st.scale_factor),
          canvas_offset_y := my - (my - st.canvas_offset_y)
            * (max (st.scale_factor / AppConfig.ZOOM_FACTOR) AppConfig.MIN_ZOOM / st.scale_factor) } := by
      unfold ImageProcessor.zoom_out
      rw [hdisp]
      simp only [Bool.true_eq_false, if_false, if_neg hguard]
    rw [hout]
    refine ⟨hclamp_out.symm, rfl, rfl, ?_⟩
    exact anchor_image_point st.scale_factor _ st.canvas_offset_x st.canvas_offset_y mx my hs0 hnout

/-- CLAIM C2, counterexample to the unrestricted statement: with a loaded
image at `scale = default_scale = 1/2`, zooming out at anchor `(10, 20)`
triggers the fit-to-window floor, so the resulting scale is `1/2`, not
`clamp(scale/factor, MIN_ZOOM, MAX_ZOOM) = 5/12`, and the offset is reset to
`(0,0)` rather than recomputed by the anchor formula. -/
theorem zoomAt_clamp_counterexample :
    ((⟨[], 0, true, 1/2, some (1/2), 3, 4, []⟩ : ImageProcessor).zoom_out 10 20).scale_factor
      ≠ clampQ ((1/2 : ℚ) / AppConfig.ZOOM_FACTOR) AppConfig.MIN_ZOOM AppConfig.MAX_ZOOM := by
  norm_num [ImageProcessor.zoom_out, ImageProcessor.reset_view, truthyScale, clampQ,
    AppConfig.ZOOM_FACTOR, AppConfig.MIN_ZOOM, AppConfig.MAX_ZOOM, max_def, min_def]

/-- CLAIM C3.  For a loaded image with a positive computed `default_scale`,
whenever the zoomed-out scale `max(scale/factor, MIN_ZOOM)` would fall below
`default_scale`, the resulting state has `scale = default_scale` and
`offset = (0, 0)`, for every anchor point. -/
theorem zoom_out_fit_floor (st : ImageProcessor) (mx my d : ℚ)
    (hdisp : st.display_image = true)
    (hd : st.default_scale = some d) (hdpos : 0 < d)
    (hbelow : max (st.scale_factor / AppConfig.ZOOM_FACTOR) AppConfig.MIN_ZOOM < d) :
    (st.zoom_out mx my).scale_factor = d
    ∧ (st.zoom_out mx my).canvas_offset_x = 0
    ∧ (st.zoom_out mx my).canvas_offset_y = 0 := by
  have hdne : d ≠ 0 := ne_of_gt hdpos
  have hguard : truthyScale st.default_scale
      ∧ max (st.scale_factor / AppConfig.ZOOM_FACTOR) AppConfig.MIN_ZOOM < st.default_scale.getD 0 := by
    rw [hd]
    refine ⟨?_, by simpa using hbelow⟩
    simp [truthyScale, hdne]
  unfold ImageProcessor.zoom_out
  rw [hdisp]
  simp only [Bool.true_eq_false, if_false, if_pos hguard]
  unfold ImageProcessor.reset_view
  rw [hd]
  simp [truthyScale, hdne, hdisp]

/-- Embeds `ImageProcessor.navigate_to_image`: rejects an empty sequence or an
out-of-range index, otherwise sets the current index. -/
def ImageProcessor.navigate_to_image (st : ImageProcessor) (index : ℤ) : ImageProcessor × Bool :=
  if st.image_paths = [] ∨ index < 0 ∨ (st.image_paths.length : ℤ) ≤ index then (st, false)
  else ({ st with current_image_index := index }, true)

/-- Embeds `ImageProcessor.next_image`: cyclic increment of the current index
modulo the sequence length (Python `%`, i.e. `Int.emod` for a positive
modulus); no-op on an empty sequence. -/
def ImageProcessor.next_image (st : ImageProcessor) : ImageProcessor × Bool :=
  if st.image_paths = [] then (st, false)
  else st.navigate_to_image ((st.current_image_index + 1) % (st.image_paths.length : ℤ))

/-- Embeds `ImageProcessor.previous_image`: cyclic decrement of the current
index modulo the sequence length; no-op on an empty sequence. -/
def ImageProcessor.previous_image (st : ImageProcessor) : ImageProcessor × Bool :=
  if st.image_paths = [] then (st, false)
  else st.navigate_to_image ((st.current_image_index - 1) % (st.image_paths.length : ℤ))

/-- Iterates `next_image` (discarding the returned flag) `n` times. -/
def nextIter (st : ImageProcessor) : Nat → ImageProcessor
  | 0 => st
  | n + 1 => nextIter (st.next_image).1 n

lemma next_image_fields (st : ImageProcessor) (hne : st.image_paths ≠ [])
    (h0 : 0 ≤ st.current_image_index)
    (h1 : st.current_image_index < (st.image_paths.length : ℤ)) :
    (st.next_image).1.image_paths = st.image_paths
    ∧ (st.next_image).1.current_image_index
        = (st.current_image_index + 1) % (st.image_paths.length : ℤ) := by
  have hlen : (0:ℤ) < (st.image_paths.length : ℤ) := by
    have : st.image_paths.length ≠ 0 := fun h => hne (List.length_eq_zero.mp h)
    omega
  have hmod0 : 0 ≤ (st.current_image_index + 1) % (st.image_paths.length : ℤ) :=
    Int.emod_nonneg _ (by omega)
  have hmod1 : (st.current_image_index + 1) % (st.image_paths.length : ℤ)
      < (st.image_paths.length : ℤ) := Int.emod_lt_of_pos _ hlen
  unfold ImageProcessor.next_image ImageProcessor.navigate_to_image
  rw [if_neg hne, if_neg (by push_neg; exact ⟨hne, hmod0, hmod1⟩)]
  exact ⟨rfl, rfl⟩

lemma nextIter_index (n : Nat) : ∀ (st : ImageProcessor), st.image_paths ≠ [] →
    0 ≤ st.current_image_index →
    st.current_image_index < (st.image_paths.length : ℤ) →
    (nextIter st n).image_paths = st.image_paths
    ∧ (nextIter st n).current_image_index
        = (st.current_image_index + n) % (st.image_paths.length : ℤ) := by
  induction n with
  | zero =>
    intro st hne h0 h1
    refine ⟨rfl, ?_⟩
    simpa using (Int.emod_eq_of_lt h0 h1).symm
  | succ n ih =>
    intro st hne h0 h1
    have hlen : (0:ℤ) < (st.image_paths.length : ℤ) := by
      have : st.image_paths.length ≠ 0 := fun h => hne (List.length_eq_zero.mp h)
      omega
    obtain ⟨hp, hi⟩ := next_image_fields st hne h0 h1
    have hne' : (st.next_image).1.image_paths ≠ [] := by rw [hp]; exact hne
    have h0' : 0 ≤ (st.next_image).1.current_image_index := by
      rw [hi]; exact Int.emod_nonneg _ (by omega)
    have h1' : (st.next_image).1.current_image_index
        < ((st.next_image).1.image_paths.length : ℤ) := by
      rw [hi, hp]; exact Int.emod_lt_of_pos _ hlen
    obtain ⟨hp2, hi2⟩ := ih (st.next_image).1 hne' h0' h1'
    refine ⟨by rw [show nextIter st (n+1) = nextIter (st.next_image).1 n from rfl, hp2, hp], ?_⟩
    rw [show nextIter st (n+1) = nextIter (st.next_image).1 n from rfl, hi2, hi, hp]
    rw [Int.emod_add_emod]
    congr 1
    push_cast
    ring

/-- CLAIM C8.  On a non-empty sequence of length `N` with the current index in
range, calling `next_image` exactly `N` times returns the index to its
original value, and `previous_image` after `next_image` restores the index;
on an empty sequence both calls leave the state unchanged and return
`false`. -/
theorem cyclic_navigation (st : ImageProcessor) :
    (st.image_paths ≠ [] → 0 ≤ st.current_image_index →
      st.current_image_index < (st.image_paths.length : ℤ) →
      (nextIter st st.image_paths.length).current_image_index = st.current_image_index
      ∧ ((st.next_image).1.previous_image).1.current_image_index = st.current_image_index)
    ∧ (st.image_paths = [] → st.next_image = (st, false) ∧ st.previous_image = (st, false)) := by
  constructor
  · intro hne h0 h1
    have hlen : (0:ℤ) < (st.image_paths.length : ℤ) := by
      have : st.image_paths.length ≠ 0 := fun h => hne (List.length_eq_zero.mp h)
      omega
    constructor
    · obtain ⟨hp, hi⟩ := nextIter_index st.image_paths.length st hne h0 h1
      rw [hi, Int.add_emod_self]
      exact Int.emod_eq_of_lt h0 h1
    · obtain ⟨hp, hi⟩ := next_image_fields st hne h0 h1
      have hne' : (st.next_image).1.image_paths ≠ [] := by rw [hp]; exact hne
      have hmod0 : 0 ≤ ((st.next_image).1.current_image_index - 1)
          % ((st.next_image).1.image_paths.length : ℤ) :=
        Int.emod_nonneg _ (by rw [hp]; omega)
      have hmod1 : ((st.next_image).1.current_image_index - 1)
          % ((st.next_image).1.image_paths.length : ℤ)
          < ((st.next_image).1.image_paths.length : ℤ) := by
        rw [hp]; exact Int.emod_lt_of_pos _ hlen
      unfold ImageProcessor.previous_image ImageProcessor.navigate_to_image
      rw [if_neg hne', if_neg (by push_neg; exact ⟨hne', hmod0, hmod1⟩)]
      show ((st.next_image).1.current_image_index - 1)
          % ((st.next_image).1.image_paths.length : ℤ) = st.current_image_index
      rw [hi, hp]
      have h2 : ((st.current_image_index + 1) % (st.image_paths.length : ℤ) - 1)
          % (st.image_paths.length : ℤ)
          = (st.current_image_index + 1 - 1) % (st.image_paths.length : ℤ) := by
        conv_lhs => rw [Int.sub_emod]
        conv_rhs => rw [Int.sub_emod]
        rw [Int.emod_emod_of_dvd _ dvd_rfl]
      rw [h2, add_sub_cancel_right]
      exact Int.emod_eq_of_lt h0 h1
  · intro hemp
    constructor
    · unfold ImageProcessor.next_image
      rw [if_pos hemp]
    · unfold ImageProcessor.previous_image
      rw [if_pos hemp]

/-- The four corner fields of the ROI dictionary `roi_coords` in
`ROIManager` (src/src/core/roi_manager.py). -/
structure RoiCoords where
  start_x : ℚ
  start_y : ℚ
  end_x : ℚ
  end_y : ℚ
deriving DecidableEq

/-- The string-tagged corner handles `"nw" | "ne" | "sw" | "se"`. -/
inductive Handle where
  | nw | ne | sw | se
deriving DecidableEq

/-- The state of `ROIManager`, restricted to the fields the verified
operations read or write (canvas item ids are rendering-only). -/
structure ROIManager where
  roi_coords : Option RoiCoords
  is_drawing : Bool
  is_dragging : Bool
  active_handle : Option Handle
  drag_start_x : ℚ
  drag_start_y : ℚ
deriving DecidableEq

/-- Embeds `ROIManager.clear_roi`: deletes the ROI and all interaction
state, returning the editor to `Idle`. -/
def ROIManager.clear_roi (st : ROIManager) : ROIManager :=
  { st with roi_coords := none, is_drawing := false,
            is_dragging := false, active_handle := none }

/-- Embeds `ROIManager.finish_roi_drawing`: no-op without a draft; otherwise
measures `|Δx|`, `|Δy|` in image units, discards drafts smaller than
`MIN_ROI_SIZE` in either dimension via `clear_roi`, and otherwise leaves
drawing mode keeping the coordinates. -/
def ROIManager.finish_roi_drawing (st : ROIManager) : ROIManager :=
  match st.roi_coords with
  | none => st
  | some c =>
    let width := |c.end_x - c.start_x|
    let height := |c.end_y - c.start_y|
    if width < AppConfig.MIN_ROI_SIZE ∨ height < AppConfig.MIN_ROI_SIZE then
      st.clear_roi
    else
      { st with is_drawing := false }

/-- Embeds `ROIManager.get_roi_coordinates`: the normalized
`(x1, y1, x2, y2)` via min/max of the two corners, or `none` without an
ROI. -/
def ROIManager.get_roi_coordinates (st : ROIManager) : Option (ℚ × ℚ × ℚ × ℚ) :=
  match st.roi_coords with
  | none => none
  | some c =>
    some (min c.start_x c.end_x, min c.start_y c.end_y,
          max c.start_x c.end_x, max c.start_y c.end_y)

/-- Embeds `ROIManager._resize_roi`: the screen-space pointer delta from
`drag_start`, divided by the processor's current scale, is added to the two
coordinate fields owned by the active handle; `drag_start` then moves to the
pointer.  No-op without an ROI or an active handle. -/
def ROIManager.resize_roi (st : ROIManager) (scale_factor : ℚ) (ex ey : ℚ) : ROIManager :=
  match st.roi_coords, st.active_handle with
  | some c, some h =>
    let dx_img := (ex - st.drag_start_x) / scale_factor
    let dy_img := (ey - st.drag_start_y) / scale_factor
    let c' :=
      match h with
      | Handle.nw => { c with start_x := c.start_x + dx_img, start_y := c.start_y + dy_img }
      | Handle.ne => { c with end_x := c.end_x + dx_img, start_y := c.start_y + dy_img }
      | Handle.sw => { c with start_x := c.start_x + dx_img, end_y := c.end_y + dy_img }
      | Handle.se => { c with end_x := c.end_x + dx_img, end_y := c.end_y + dy_img }
    { st with roi_coords := some c', drag_start_x := ex, drag_start_y := ey }
  | _, _ => st

/-- Embeds `ROIManager._move_roi`: the same image-space delta is added to all
four coordinate fields; `drag_start` then moves to the pointer.  No-op
without an ROI. -/
def ROIManager.move_roi (st : ROIManager) (scale_factor : ℚ) (ex ey : ℚ) : ROIManager :=
  match st.roi_coords with
  | none => st
  | some c =>
    let dx_img := (ex - st.drag_start_x) / scale_factor
    let dy_img := (ey - st.drag_start_y) / scale_factor
    { st with
      roi_coords := some { start_x := c.start_x + dx_img, start_y := c.start_y + dy_img,
                           end_x := c.end_x + dx_img, end_y := c.end_y + dy_img },
      drag_start_x := ex, drag_start_y := ey }

/-- CLAIM C5.  Finalizing a draft ROI whose width or height (as `|Δ|` in
image units) is below `MIN_ROI_SIZE` discards it and leaves the editor in
`Idle` (no ROI, no drawing/dragging/handle state); otherwise the draft is
kept and the editor transitions to `Ready` (coordinates persisted, drawing
mode off). -/
theorem finish_roi_small_discard (st : ROIManager) (c : RoiCoords)
    (hroi : st.roi_coords = some c)
    (hdrag : st.is_dragging = false) (hhandle : st.active_handle = none) :
    ((|c.end_x - c.start_x| < AppConfig.MIN_ROI_SIZE
        ∨ |c.end_y - c.start_y| < AppConfig.MIN_ROI_SIZE) →
      st.finish_roi_drawing.roi_coords = none
      ∧ st.finish_roi_drawing.is_drawing = false
      ∧ st.finish_roi_drawing.is_dragging = false
      ∧ st.finish_roi_drawing.active_handle = none)
    ∧ (¬(|c.end_x - c.start_x| < AppConfig.MIN_ROI_SIZE
        ∨ |c.end_y - c.start_y| < AppConfig.MIN_ROI_SIZE) →
      st.finish_roi_drawing.roi_coords = some c
      ∧ st.finish_roi_drawing.is_drawing = false
      ∧ st.finish_roi_drawing.is_dragging = false
      ∧ st.finish_roi_drawing.active_handle = none) := by
  have hred : st.finish_roi_drawing
      = if |c.end_x - c.start_x| < AppConfig.MIN_ROI_SIZE
            ∨ |c.end_y - c.start_y| < AppConfig.MIN_ROI_SIZE then st.clear_roi
        else { st with is_drawing := false } := by
    unfold ROIManager.finish_roi_drawing
    rw [hroi]
  constructor
  · intro hsmall
    rw [hred, if_pos hsmall]
    exact ⟨rfl, rfl, rfl, rfl⟩
  · intro hbig
    rw [hred, if_neg hbig]
    exact ⟨hroi, rfl, hdrag, hhandle⟩

/-- CLAIM C6.  `get_roi_coordinates` returns the normalized corner pair via
min/max, with `x1 ≤ x2` and `y1 ≤ y2`, for every corner-pair state, and
`none` when no ROI exists. -/
theorem get_roi_coordinates_normalized (st : ROIManager) :
    (st.roi_coords = none → st.get_roi_coordinates = none)
    ∧ ∀ c, st.roi_coords = some c →
      st.get_roi_coordinates
        = some (min c.start_x c.end_x, min c.start_y c.end_y,
                max c.start_x c.end_x, max c.start_y c.end_y)
      ∧ min c.start_x c.end_x ≤ max c.start_x c.end_x
      ∧ min c.start_y c.end_y ≤ max c.start_y c.end_y := by
  constructor
  · intro h
    unfold ROIManager.get_roi_coordinates
    rw [h]
  · intro c h
    unfold ROIManager.get_roi_coordinates
    rw [h]
    exact ⟨rfl, le_trans (min_le_left _ _) (le_max_left _ _),
           le_trans (min_le_left _ _) (le_max_left _ _)⟩

/-- CLAIM C7.  During a `Resizing` drag, the screen pointer delta divided by
the current scale is added exactly to the two coordinate fields owned by the
active handle (`nw`: start_x/start_y, `ne`: end_x/start_y, `sw`:
start_x/end_y, `se`: end_x/end_y), with the other fields untouched and no
re-normalization (so the rectangle may invert); a `Moving` drag adds the same
image-space delta to all four fields. -/
theorem resize_move_deltas (st : ROIManager) (c : RoiCoords) (scale_factor ex ey : ℚ)
    (hroi : st.roi_coords = some c) :
    ((st.active_handle = some Handle.nw →
      (st.resize_roi scale_factor ex ey).roi_coords
        = some { c with start_x := c.start_x + (ex - st.drag_start_x) / scale_factor,
                        start_y := c.start_y + (ey - st.drag_start_y) / scale_factor })
    ∧ (st.active_handle = some Handle.ne →
      (st.resize_roi scale_factor ex ey).roi_coords
        = some { c with end_x := c.end_x + (ex - st.drag_start_x) / scale_factor,
                        start_y := c.start_y + (ey - st.drag_start_y) / scale_factor })
    ∧ (st.active_handle = some Handle.sw →
      (st.resize_roi scale_factor ex ey).roi_coords
        = some { c with start_x := c.start_x + (ex - st.drag_start_x) / scale_factor,
                        end_y := c.end_y + (ey - st.drag_start_y) / scale_factor })
    ∧ (st.active_handle = some Handle.se →
      (st.resize_roi scale_factor ex ey).roi_coords
        = some { c with end_x := c.end_x + (ex - st.drag_start_x) / scale_factor,
                        end_y := c.end_y + (ey - st.drag_start_y) / scale_factor }))
    ∧ (st.move_roi scale_factor ex ey).roi_coords
        = some { start_x := c.start_x + (ex - st.drag_start_x) / scale_factor,
                 start_y := c.start_y + (ey - st.drag_start_y) / scale_factor,
                 end_x := c.end_x + (ex - st.drag_start_x) / scale_factor,
                 end_y := c.end_y + (ey - st.drag_start_y) / scale_factor } := by
  refine ⟨⟨?_, ?_, ?_, ?_⟩, ?_⟩ <;>
    first
      | (intro hh
         unfold ROIManager.resize_roi
         rw [hroi, hh])
      | (unfold ROIManager.move_roi
         rw [hroi])

/-- The `for img_path in self.image_paths` loop body of
`ImageProcessor.crop_all_images`: each path is opened and cropped with the
fixed ROI box (abstracted by `openCrop`, which returns `none` when
`Image.open` or `crop` raises); the first failure aborts the whole loop. -/
def cropLoop (openCrop : FPath → Option Img) : List FPath → List Img → Option (List Img)
  | [], acc => some acc
  | p :: rest, acc =>
    match openCrop p with
    | some img => cropLoop openCrop rest (acc ++ [img])
    | none => none

/-- Embeds `ImageProcessor.crop_all_images`: returns `false` on an empty
sequence; otherwise rebuilds `cropped_images` from scratch, and on any
open/crop failure the `except` branch empties `cropped_images` and returns
`false`. -/
def ImageProcessor.crop_all_images (st : ImageProcessor)
    (openCrop : FPath → Option Img) : ImageProcessor × Bool :=
  if st.image_paths = [] then (st, false)
  else
    match cropLoop openCrop st.image_paths [] with
    | some imgs => ({ st with cropped_images := imgs }, true)
    | none => ({ st with cropped_images := [] }, false)

lemma cropLoop_none (openCrop : FPath → Option Img) (l : List FPath) :
    ∀ acc, (∃ p ∈ l, openCrop p = none) → cropLoop openCrop l acc = none := by
  induction l with
  | nil =>
    intro acc h
    obtain ⟨p, hp, _⟩ := h
    exact absurd hp (List.not_mem_nil p)
  | cons q rest ih =>
    intro acc h
    obtain ⟨p, hp, hfail⟩ := h
    unfold cropLoop
    match hq : openCrop q with
    | none => rfl
    | some img =>
      rcases List.mem_cons.mp hp with hqp | hrest
      · rw [hqp] at hfail
        rw [hfail] at hq
        exact absurd hq (by simp)
      · exact ih (acc ++ [img]) ⟨p, hrest, hfail⟩

/-- CLAIM C4.  `crop_all_images` is all-or-nothing: on a non-empty sequence,
if opening/cropping any single image fails, the call returns `false` and the
crop result set is empty afterwards, discarding both partial results of the
batch and any previously held crop result set. -/
theorem crop_all_aborts (st : ImageProcessor) (openCrop : FPath → Option Img)
    (hne : st.image_paths ≠ [])
    (hfail : ∃ p ∈ st.image_paths, openCrop p = none) :
    (st.crop_all_images openCrop).1.cropped_images = []
    ∧ (st.crop_all_images openCrop).2 = false := by
  unfold ImageProcessor.crop_all_images
  rw [if_neg hne, cropLoop_none openCrop st.image_paths [] hfail]
  exact ⟨rfl, rfl⟩

/-- Embeds `os.path.basename` (posix): the suffix after the last slash. -/
def basename (p : FPath) : FPath :=
  (p.reverse.takeWhile (fun c => c ≠ '/')).reverse

/-- Embeds `os.path.splitext` (posix): splits at the last dot of the
basename, unless the basename up to that dot is all dots (leading-dot
files keep their name whole). -/
def splitext (p : FPath) : FPath × FPath :=
  let b := basename p
  let stem := p.take (p.length - b.length)
  let r := b.reverse
  if ('.' : Char) ∈ r then
    let extRev := r.takeWhile (fun c => c ≠ '.')
    let nameRev := r.drop (extRev.length + 1)
    if nameRev.any (fun c => c ≠ '.') then
      (stem ++ nameRev.reverse, '.' :: extRev.reverse)
    else (p, [])
  else (p, [])

/-- Embeds `os.path.join` (posix) for two components. -/
def joinPath (a b : FPath) : FPath :=
  if b.head? = some '/' then b
  else if a = [] ∨ a.getLast? = some '/' then a ++ b
  else a ++ '/' :: b

/-- Embeds `os.path.dirname` (posix): the prefix before the basename,
trailing slashes stripped unless it consists only of slashes. -/
def dirname (p : FPath) : FPath :=
  let head := p.take (p.length - (basename p).length)
  if head ≠ [] ∧ head.any (fun c => c ≠ '/') then
    (head.reverse.dropWhile (fun c => c = '/')).reverse
  else head

/-- An abstract file system: a set of created directories and a partial map
from paths to saved image contents. -/
structure FileSystem where
  dirs : List FPath
  files : FPath → Option Img

/-- Embeds `img.save(path)`: writes (and overwrites) the file at `path`. -/
def FileSystem.save_file (fs : FileSystem) (p : FPath) (img : Img) : FileSystem :=
  { fs with files := fun q => if q = p then some img else fs.files q }

/-- Embeds `os.makedirs(path, exist_ok=True)`. -/
def FileSystem.makedirs (fs : FileSystem) (p : FPath) : FileSystem :=
  { fs with dirs := if p ∈ fs.dirs then fs.dirs else p :: fs.dirs }

/-- The output path computed inside `ImageProcessor.save_cropped_images`:
`os.path.join(export_folder, f"{name}_cropped{ext}")` for
`name, ext = os.path.splitext(os.path.basename(img_path))`. -/
def croppedOutputPath (export_folder img_path : FPath) : FPath :=
  let base_name := basename img_path
  let pr := splitext base_name
  joinPath export_folder (pr.1 ++ ("_cropped".data) ++ pr.2)

/-- The `for i, img in enumerate(self.cropped_images)` loop of
`ImageProcessor.save_cropped_images`: each cropped image is saved under its
computed name; an out-of-range index (the only modelled failure) raises and
is caught, leaving already-written files on disk. -/
def saveLoop (paths : List FPath) (export_folder : FPath) :
    List Img → Nat → FileSystem → FileSystem × Bool
  | [], _, fs => (fs, true)
  | img :: rest, i, fs =>
    match paths[i]? with
    | none => (fs, false)
    | some p =>
      saveLoop paths export_folder rest (i + 1)
        (fs.save_file (croppedOutputPath export_folder p) img)

/-- Embeds `ImageProcessor.save_cropped_images`: returns `false` with no
cropped images; otherwise creates the export folder and saves every cropped
image as `basename + "_cropped" + ext` next to its source name. -/
def ImageProcessor.save_cropped_images (st : ImageProcessor) (fs : FileSystem)
    (export_folder : FPath) : FileSystem × Bool :=
  if st.cropped_images = [] then (fs, false)
  else saveLoop st.image_paths export_folder st.cropped_images 0 (fs.makedirs export_folder)

lemma save_file_files (fs : FileSystem) (p : FPath) (img : Img) (q : FPath) :
    (fs.save_file p img).files q = if q = p then some img else fs.files q := rfl

lemma saveLoop_dirs (paths : List FPath) (folder : FPath) (imgs : List Img) :
    ∀ (i : Nat) (fs : FileSystem), (saveLoop paths folder imgs i fs).1.dirs = fs.dirs := by
  induction imgs with
  | nil => intro i fs; rfl
  | cons img rest ih =>
    intro i fs
    cases hp : paths[i]? with
    | none => simp [saveLoop, hp]
    | some p =>
      simp only [saveLoop, hp]
      exact ih (i + 1) _

lemma saveLoop_success (paths : List FPath) (folder : FPath) (imgs : List Img) :
    ∀ (i : Nat) (fs : FileSystem), i + imgs.length ≤ paths.length →
      (saveLoop paths folder imgs i fs).2 = true := by
  induction imgs with
  | nil => intro i fs h; rfl
  | cons img rest ih =>
    intro i fs h
    have hi : i < paths.length := by
      simp only [List.length_cons] at h
      omega
    have hp : paths[i]? = some paths[i] := List.getElem?_eq_getElem hi
    simp only [saveLoop, hp]
    apply ih
    simp only [List.length_cons] at h
    omega

lemma saveLoop_untouched (paths : List FPath) (folder : FPath) (imgs : List Img) :
    ∀ (i : Nat) (fs : FileSystem) (q : FPath),
      q ∉ (paths.drop i).map (croppedOutputPath folder) →
      (saveLoop paths folder imgs i fs).1.files q = fs.files q := by
  induction imgs with
  | nil => intro i fs q h; rfl
  | cons img rest ih =>
    intro i fs q h
    cases hp : paths[i]? with
    | none => simp [saveLoop, hp]
    | some p =>
      have hi : i < paths.length := by
        by_contra hge
        rw [List.getElem?_eq_none (by omega)] at hp
        exact Option.noConfusion hp
      have hpe : p = paths[i] := by
        rw [List.getElem?_eq_getElem hi] at hp
        exact (Option.some.injEq _ _ ▸ hp.symm)
      have hdrop : paths.drop i = paths[i] :: paths.drop (i + 1) :=
        (List.getElem_cons_drop paths i hi).symm
      rw [hdrop, List.map_cons, List.mem_cons, not_or] at h
      obtain ⟨h1, h2⟩ := h
      simp only [saveLoop, hp]
      rw [ih (i + 1) _ q h2, save_file_files, if_neg (by rw [hpe]; exact h1)]

lemma saveLoop_files_at (paths : List FPath) (folder : FPath) (imgs : List Img) :
    ∀ (i : Nat) (fs : FileSystem) (j : Nat) (hj : j < imgs.length)
      (hk : i + j < paths.length),
      i + imgs.length ≤ paths.length →
      ((paths.drop i).map (croppedOutputPath folder)).Nodup →
      (saveLoop paths folder imgs i fs).1.files
          (croppedOutputPath folder paths[i + j])
        = some imgs[j] := by
  induction imgs with
  | nil =>
    intro i fs j hj
    exact absurd hj (by simp)
  | cons img rest ih =>
    intro i fs j hj hk hlen hnd
    have hi : i < paths.length := by
      simp only [List.length_cons] at hlen
      omega
    have hp : paths[i]? = some paths[i] := List.getElem?_eq_getElem hi
    have hdrop : paths.drop i = paths[i] :: paths.drop (i + 1) :=
      (List.getElem_cons_drop paths i hi).symm
    rw [hdrop, List.map_cons, List.nodup_cons] at hnd
    obtain ⟨hhead, htail⟩ := hnd
    simp only [saveLoop, hp]
    match j with
    | 0 =>
      show (saveLoop paths folder rest (i + 1) _).1.files
          (croppedOutputPath folder paths[i]) = some img
      rw [saveLoop_untouched paths folder rest (i + 1) _ _ hhead,
        save_file_files, if_pos rfl]
    | j' + 1 =>
      have hj' : j' < rest.length := by
        simp only [List.length_cons] at hj
        omega
      have hk' : (i + 1) + j' < paths.length := by omega
      have hidx : paths[i + (j' + 1)] = paths[(i + 1) + j'] := by
        congr 1
        omega
      rw [hidx]
      rw [ih (i + 1) _ j' hj' hk' (by simp only [List.length_cons] at hlen; omega) htail]
      rfl

lemma saveLoop_files_at_zero (paths : List FPath) (folder : FPath) (imgs : List Img)
    (fs : FileSystem) (j : Nat) (hj : j < imgs.length) (hk : j < paths.length)
    (hlen : imgs.length ≤ paths.length)
    (hnd : (paths.map (croppedOutputPath folder)).Nodup) :
    (saveLoop paths folder imgs 0 fs).1.files (croppedOutputPath folder paths[j])
      = some imgs[j] := by
  have h := saveLoop_files_at paths folder imgs 0 fs j hj (by omega) (by omega)
    (by simpa using hnd)
  simpa only [Nat.zero_add] using h

lemma saveLoop_twice (paths : List FPath) (folder : FPath) (imgs : List Img)
    (fs fs2 : FileSystem)
    (hlen : imgs.length = paths.length)
    (hnd : (paths.map (croppedOutputPath folder)).Nodup)
    (hfiles : ∀ q, q ∉ paths.map (croppedOutputPath folder) →
        fs2.files q = (saveLoop paths folder imgs 0 fs).1.files q) :
    (saveLoop paths folder imgs 0 fs2).1.files
      = (saveLoop paths folder imgs 0 fs).1.files := by
  funext q
  by_cases hq : q ∈ paths.map (croppedOutputPath folder)
  · obtain ⟨p, hpmem, hpq⟩ := List.mem_map.mp hq
    obtain ⟨k, hk, hpk⟩ := List.mem_iff_getElem.mp hpmem
    have hkj : k < imgs.length := by omega
    have h1 := saveLoop_files_at_zero paths folder imgs fs k hkj hk (by omega) hnd
    have h2 := saveLoop_files_at_zero paths folder imgs fs2 k hkj hk (by omega) hnd
    rw [← hpq, ← hpk, h1, h2]
  · rw [saveLoop_untouched _ _ _ 0 _ _ (by simpa using hq)]
    exact hfiles q hq

/-- CLAIM C9.  With a non-empty crop result set aligned with the source
sequence (and distinct computed output names), `save_cropped_images`
succeeds, creates the destination folder, and writes cropped image `j` at
`originalBasename + "_cropped" + originalExtension` inside the folder —
overwriting whatever the file system previously held there (the initial
`fs` is arbitrary).  Saving a second time into the same folder writes the
same paths again and leaves the file map unchanged: no collision-avoiding
counter suffix is ever applied. -/
theorem save_cropped_naming (st : ImageProcessor) (fs : FileSystem) (export_folder : FPath)
    (hne : st.cropped_images ≠ [])
    (hlen : st.cropped_images.length = st.image_paths.length)
    (hnd : (st.image_paths.map (croppedOutputPath export_folder)).Nodup) :
    (st.save_cropped_images fs export_folder).2 = true
    ∧ export_folder ∈ (st.save_cropped_images fs export_folder).1.dirs
    ∧ (∀ j (hj : j < st.cropped_images.length) (hk : j < st.image_paths.length),
        (st.save_cropped_images fs export_folder).1.files
            (croppedOutputPath export_folder st.image_paths[j])
          = some st.cropped_images[j])
    ∧ (st.save_cropped_images (st.save_cropped_images fs export_folder).1 export_folder).1.files
        = (st.save_cropped_images fs export_folder).1.files := by
  have hredf : ∀ g : FileSystem, st.save_cropped_images g export_folder
      = saveLoop st.image_paths export_folder st.cropped_images 0 (g.makedirs export_folder) := by
    intro g
    unfold ImageProcessor.save_cropped_images
    rw [if_neg hne]
  refine ⟨?_, ?_, ?_, ?_⟩
  · rw [hredf]
    exact saveLoop_success _ _ _ 0 _ (by omega)
  · rw [hredf, saveLoop_dirs]
    unfold FileSystem.makedirs
    simp only
    split
    · assumption
    · exact List.mem_cons_self _ _
  · intro j hj hk
    rw [hredf]
    exact saveLoop_files_at_zero _ _ _ _ j hj hk (by omega) hnd
  · rw [hredf fs, hredf]
    apply saveLoop_twice _ _ _ _ _ hlen hnd
    intro q hq
    rfl

/-- The candidate name `f"{name} ({counter}){ext}"` built inside
`ImageProcessor._get_unique_filename`. -/
def counterName (name ext : FPath) (counter : Nat) : FPath :=
  name ++ (" (".data) ++ (Nat.repr counter).data ++ (")".data) ++ ext

/-- The `while True` collision loop of `_get_unique_filename`: try the
candidate with the current counter, return it when no such path exists,
else increment.  The Python loop is unbounded; here it carries fuel, and the
theorems only use runs whose hypotheses guarantee a free candidate is found
before the fuel runs out. -/
def uniqueLoop (ex : List FPath) (directory name ext : FPath) : Nat → Nat → FPath
  | 0, counter => joinPath directory (counterName name ext counter)
  | fuel + 1, counter =>
    let new_path := joinPath directory (counterName name ext counter)
    if new_path ∈ ex then uniqueLoop ex directory name ext fuel (counter + 1)
    else new_path

/-- Embeds `ImageProcessor._get_unique_filename`: the existing-path check
`os.path.exists` is modelled by membership in the list `ex` of existing
paths.  A path that does not exist is returned unchanged; otherwise the
parenthesized-counter loop runs from counter 1. -/
def get_unique_filename (ex : List FPath) (filepath : FPath) : FPath :=
  if filepath ∉ ex then filepath
  else
    let directory := dirname filepath
    let bn := basename filepath
    let pr := splitext bn
    uniqueLoop ex directory pr.1 pr.2 (ex.length + 1) 1

/-- The output-naming slice of `ImageProcessor.create_animation`: extension
chosen from the export type (`".gif"` for `'gif'`, else `".mp4"`), base path
joined into the export folder, then collision avoidance through
`_get_unique_filename`. -/
def animation_output_path (ex : List FPath) (export_folder : FPath)
    (export_type filename : List Char) : FPath :=
  let extension := if export_type = ("gif".data) then (".gif".data) else (".mp4".data)
  let base_path := joinPath export_folder (filename ++ extension)
  get_unique_filename ex base_path

lemma uniqueLoop_least (ex : List FPath) (directory name ext : FPath) :
    ∀ (fuel c c0 : Nat), c ≤ c0 → c0 - c < fuel →
      joinPath directory (counterName name ext c0) ∉ ex →
      (∀ k, c ≤ k → k < c0 → joinPath directory (counterName name ext k) ∈ ex) →
      uniqueLoop ex directory name ext fuel c
        = joinPath directory (counterName name ext c0) := by
  intro fuel
  induction fuel with
  | zero =>
    intro c c0 hle hfuel
    omega
  | succ fuel ih =>
    intro c c0 hle hfuel hfree htaken
    by_cases hc : c = c0
    · subst hc
      unfold uniqueLoop
      rw [if_neg hfree]
    · have hlt : c < c0 := by omega
      unfold uniqueLoop
      rw [if_pos (htaken c le_rfl hlt)]
      exact ih (c + 1) c0 (by omega) (by omega) hfree
        (fun k hk1 hk2 => htaken k (by omega) hk2)

/-- CLAIM C10.  Animation export naming: a requested output path that does
not yet exist is used as-is; if it exists, the encoder appends an
incrementing parenthesized counter and returns the candidate with the
smallest counter `c0` whose path does not exist (provided some counter
`≤ |ex| + 1` is free), and that returned path does not exist; consequently a
second export whose file system contains the first artifact, and which
itself resolves to an unused path, produces a file distinct from the
first. -/
theorem animation_unique_naming (ex : List FPath) (export_folder : FPath)
    (export_type filename : List Char) (c0 : Nat) :
    (joinPath export_folder
        (filename ++ (if export_type = ("gif".data) then (".gif".data) else (".mp4".data))) ∉ ex →
      animation_output_path ex export_folder export_type filename
        = joinPath export_folder
            (filename ++ (if export_type = ("gif".data) then (".gif".data) else (".mp4".data))))
    ∧ (∀ base, base = joinPath export_folder
          (filename ++ (if export_type = ("gif".data) then (".gif".data) else (".mp4".data))) →
        base ∈ ex → 1 ≤ c0 → c0 ≤ ex.length + 1 →
        joinPath (dirname base)
          (counterName (splitext (basename base)).1 (splitext (basename base)).2 c0) ∉ ex →
        (∀ k, 1 ≤ k → k < c0 →
          joinPath (dirname base)
            (counterName (splitext (basename base)).1 (splitext (basename base)).2 k) ∈ ex) →
        animation_output_path ex export_folder export_type filename
          = joinPath (dirname base)
              (counterName (splitext (basename base)).1 (splitext (basename base)).2 c0)
        ∧ animation_output_path ex export_folder export_type filename ∉ ex)
    ∧ (∀ ex2 : List FPath,
        animation_output_path ex export_folder export_type filename ∈ ex2 →
        animation_output_path ex2 export_folder export_type filename ∉ ex2 →
        animation_output_path ex2 export_folder export_type filename
          ≠ animation_output_path ex export_folder export_type filename) := by
  refine ⟨?_, ?_, ?_⟩
  · intro hfresh
    unfold animation_output_path get_unique_filename
    rw [if_pos hfresh]
  · intro base hbase hmem hc1 hc2 hfree htaken
    subst hbase
    have hmain : animation_output_path ex export_folder export_type filename
        = joinPath (dirname (joinPath export_folder
            (filename ++ (if export_type = ("gif".data) then (".gif".data) else (".mp4".data)))))
            (counterName (splitext (basename (joinPath export_folder
              (filename ++ (if export_type = ("gif".data) then (".gif".data) else (".mp4".data)))))).1
              (splitext (basename (joinPath export_folder
              (filename ++ (if export_type = ("gif".data) then (".gif".data) else (".mp4".data)))))).2
              c0) := by
      unfold animation_output_path get_unique_filename
      rw [if_neg (not_not_intro hmem)]
      exact uniqueLoop_least ex _ _ _ (ex.length + 1) 1 c0 hc1 (by omega) hfree
        (fun k hk1 hk2 => htaken k hk1 hk2)
    exact ⟨hmain, by rw [hmain]; exact hfree⟩
  · intro ex2 hmem2 hfresh2 heq
    rw [heq] at hfresh2
    exact hfresh2 hmem2

/-- A sample loaded-image state used by concrete witnesses. -/
def sampleProcessor : ImageProcessor :=
  { image_paths := [['a'], ['b'], ['c']], current_image_index := 1, display_image := true,
    scale_factor := 1, default_scale := some (1/2), canvas_offset_x := 0, canvas_offset_y := 0,
    cropped_images := [] }

/-- A loaded-image state sitting exactly at its fit-to-window scale. -/
def floorProcessor : ImageProcessor :=
  ⟨[], 0, true, 1/2, some (1/2), 3, 4, []⟩

theorem coord_roundtrip_witness :
    AppConfig.MIN_ZOOM ≤ sampleProcessor.scale_factor
    ∧ sampleProcessor.scale_factor ≤ AppConfig.MAX_ZOOM
    ∧ |((sampleProcessor.screen_to_image_coords
          ((sampleProcessor.image_to_screen_coords 3 4).1 : ℚ)
          ((sampleProcessor.image_to_screen_coords 3 4).2 : ℚ)).1 : ℚ) - 3|
        < 1 + 1/sampleProcessor.scale_factor :=
  ⟨by norm_num [sampleProcessor, AppConfig.MIN_ZOOM],
   by norm_num [sampleProcessor, AppConfig.MAX_ZOOM],
   (coord_roundtrip sampleProcessor (by norm_num [sampleProcessor, AppConfig.MIN_ZOOM])
     (by norm_num [sampleProcessor, AppConfig.MAX_ZOOM]) 3 4).2.2.1⟩

theorem zoomAt_clamp_and_anchor_witness :
    sampleProcessor.display_image = true
    ∧ (sampleProcessor.zoom_in 10 20).scale_factor
        = clampQ (sampleProcessor.scale_factor * AppConfig.ZOOM_FACTOR)
            AppConfig.MIN_ZOOM AppConfig.MAX_ZOOM
    ∧ (sampleProcessor.zoom_out 10 20).scale_factor
        = clampQ (sampleProcessor.scale_factor / AppConfig.ZOOM_FACTOR)
            AppConfig.MIN_ZOOM AppConfig.MAX_ZOOM
    ∧ (floorProcessor.zoom_in 10 20).scale_factor
        = clampQ (floorProcessor.scale_factor * AppConfig.ZOOM_FACTOR)
            AppConfig.MIN_ZOOM AppConfig.MAX_ZOOM :=
  ⟨rfl,
   (zoomAt_clamp_and_anchor sampleProcessor 10 20 rfl
     (by norm_num [sampleProcessor, AppConfig.MIN_ZOOM])
     (by norm_num [sampleProcessor, AppConfig.MAX_ZOOM])).1.1,
   ((zoomAt_clamp_and_anchor sampleProcessor 10 20 rfl
     (by norm_num [sampleProcessor, AppConfig.MIN_ZOOM])
     (by norm_num [sampleProcessor, AppConfig.MAX_ZOOM])).2
     (by
       intro d hd hdne
       simp only [sampleProcessor] at hd ⊢
       injection hd with h
       subst h
       norm_num [AppConfig.ZOOM_FACTOR, AppConfig.MIN_ZOOM, le_max_iff])).1,
   (zoomAt_clamp_and_anchor floorProcessor 10 20 rfl
     (by norm_num [floorProcessor, AppConfig.MIN_ZOOM])
     (by norm_num [floorProcessor, AppConfig.MAX_ZOOM])).1.1⟩

theorem zoom_out_fit_floor_witness :
    floorProcessor.display_image = true
    ∧ floorProcessor.default_scale = some (1/2)
    ∧ (0:ℚ) < 1/2
    ∧ max (floorProcessor.scale_factor / AppConfig.ZOOM_FACTOR) AppConfig.MIN_ZOOM < 1/2
    ∧ (floorProcessor.zoom_out 7 9).scale_factor = 1/2
    ∧ (floorProcessor.zoom_out 7 9).canvas_offset_x = 0
    ∧ (floorProcessor.zoom_out 7 9).canvas_offset_y = 0 :=
  ⟨rfl, rfl, by norm_num,
   by norm_num [floorProcessor, AppConfig.ZOOM_FACTOR, AppConfig.MIN_ZOOM, max_def],
   zoom_out_fit_floor floorProcessor 7 9 (1/2) rfl rfl (by norm_num)
     (by norm_num [floorProcessor, AppConfig.ZOOM_FACTOR, AppConfig.MIN_ZOOM, max_def])⟩

/-- A state holding a previously successful crop result set. -/
def cropProcessor : ImageProcessor :=
  ⟨[['a'], ['b']], 0, false, 1, none, 0, 0, [5]⟩

/-- An open/crop action that fails on the second image of the sequence. -/
def failingOpenCrop : FPath → Option Img :=
  fun p => if p = ['b'] then none else some 0

theorem crop_all_aborts_witness :
    cropProcessor.image_paths ≠ []
    ∧ (cropProcessor.crop_all_images failingOpenCrop).1.cropped_images = []
    ∧ (cropProcessor.crop_all_images failingOpenCrop).2 = false :=
  ⟨by decide,
   (crop_all_aborts cropProcessor failingOpenCrop (by decide)
     ⟨['b'], by decide, by decide⟩).1,
   (crop_all_aborts cropProcessor failingOpenCrop (by decide)
     ⟨['b'], by decide, by decide⟩).2⟩

/-- A drawing-mode editor holding a 3-by-2 draft ROI (below
`MIN_ROI_SIZE`). -/
def roiDraft : ROIManager :=
  ⟨some ⟨0, 0, 3, 2⟩, true, false, none, 0, 0⟩

theorem finish_roi_small_discard_witness :
    roiDraft.roi_coords = some ⟨0, 0, 3, 2⟩
    ∧ roiDraft.finish_roi_drawing.roi_coords = none
    ∧ roiDraft.finish_roi_drawing.is_drawing = false
    ∧ roiDraft.finish_roi_drawing.is_dragging = false
    ∧ roiDraft.finish_roi_drawing.active_handle = none :=
  ⟨rfl,
   (finish_roi_small_discard roiDraft ⟨0, 0, 3, 2⟩ rfl rfl rfl).1
     (Or.inl (by norm_num [AppConfig.MIN_ROI_SIZE]))⟩

/-- An editor holding an inverted (dragged right-to-left, bottom-to-top)
corner pair. -/
def roiReady : ROIManager :=
  ⟨some ⟨7, 8, 2, 5⟩, false, false, none, 0, 0⟩

theorem get_roi_coordinates_normalized_witness :
    roiReady.get_roi_coordinates
      = some (min (7:ℚ) 2, min (8:ℚ) 5, max (7:ℚ) 2, max (8:ℚ) 5)
    ∧ min (7:ℚ) 2 ≤ max (7:ℚ) 2
    ∧ min (8:ℚ) 5 ≤ max (8:ℚ) 5 :=
  (get_roi_coordinates_normalized roiReady).2 ⟨7, 8, 2, 5⟩ rfl

/-- An editor in a resize drag on the south-east handle. -/
def roiResize : ROIManager :=
  ⟨some ⟨0, 0, 10, 10⟩, false, false, some Handle.se, 0, 0⟩

theorem resize_move_deltas_witness :
    roiResize.roi_coords = some ⟨0, 0, 10, 10⟩
    ∧ roiResize.active_handle = some Handle.se
    ∧ (roiResize.resize_roi 1 (-20) 3).roi_coords
        = some { start_x := 0, start_y := 0,
                 end_x := 10 + ((-20) - 0) / 1, end_y := 10 + (3 - 0) / 1 }
    ∧ (roiResize.move_roi 1 (-20) 3).roi_coords
        = some { start_x := 0 + ((-20) - 0) / 1, start_y := 0 + (3 - 0) / 1,
                 end_x := 10 + ((-20) - 0) / 1, end_y := 10 + (3 - 0) / 1 } :=
  ⟨rfl, rfl,
   (resize_move_deltas roiResize ⟨0, 0, 10, 10⟩ 1 (-20) 3 rfl).1.2.2.2 rfl,
   (resize_move_deltas roiResize ⟨0, 0, 10, 10⟩ 1 (-20) 3 rfl).2⟩

/-- A three-image sequence positioned on its middle image. -/
def navProcessor : ImageProcessor :=
  ⟨[['a'], ['b'], ['c']], 1, false, 1, none, 0, 0, []⟩

theorem cyclic_navigation_witness :
    (nextIter navProcessor navProcessor.image_paths.length).current_image_index
        = navProcessor.current_image_index
    ∧ ((navProcessor.next_image).1.previous_image).1.current_image_index
        = navProcessor.current_image_index :=
  (cyclic_navigation navProcessor).1 (by decide) (by decide) (by decide)

/-- A state holding two cropped images aligned with two source paths. -/
def saveProcessor : ImageProcessor :=
  ⟨[['a', '.', 'p', 'n', 'g'], ['b', '.', 'p', 'n', 'g']], 0, false, 1, none, 0, 0, [7, 8]⟩

/-- An empty file system. -/
def emptyFS : FileSystem :=
  ⟨[], fun _ => none⟩

/-- A destination folder name. -/
def outFolder : FPath := ['o', 'u', 't']

theorem save_cropped_naming_witness :
    saveProcessor.cropped_images ≠ []
    ∧ saveProcessor.cropped_images.length = saveProcessor.image_paths.length
    ∧ (saveProcessor.save_cropped_images emptyFS outFolder).2 = true
    ∧ outFolder ∈ (saveProcessor.save_cropped_images emptyFS outFolder).1.dirs
    ∧ (saveProcessor.save_cropped_images emptyFS outFolder).1.files
        (croppedOutputPath outFolder (['a', '.', 'p', 'n', 'g']))
      = some 7 :=
  ⟨by decide, by decide,
   (save_cropped_naming saveProcessor emptyFS outFolder (by decide) (by decide) (by decide)).1,
   (save_cropped_naming saveProcessor emptyFS outFolder (by decide) (by decide) (by decide)).2.1,
   (save_cropped_naming saveProcessor emptyFS outFolder (by decide) (by decide)
     (by decide)).2.2.1 0 (by decide) (by decide)⟩

theorem animation_unique_naming_witness :
    animation_output_path [joinPath ['o'] (['a', 'n'] ++ (".gif".data))] ['o']
        ("gif".data) ['a', 'n']
      ∉ [joinPath ['o'] (['a', 'n'] ++ (".gif".data))] :=
  ((animation_unique_naming [joinPath ['o'] (['a', 'n'] ++ (".gif".data))] ['o']
      ("gif".data) ['a', 'n'] 1).2.1 _ rfl (by decide) (by decide) (by decide) (by decide)
    (fun k h1 h2 => absurd (lt_of_le_of_lt h1 h2) (by omega))).2
